import Mathlib

set_option maxHeartbeats 1000000

/-!
Verification of the nanit stream-liveness core.

Shallow embedding of:
* `pkg/player/silencedetect.go` — the ffmpeg silencedetect log classifier;
* `pkg/app/player.go` — `dummyPlayer`, the stream liveness probe (its decoder
  goroutine and its main select loop, as explicit event-trace machines);
* the watchdog loop `runWatchDog` and the websocket stream-request logic of
  `runWebsocket` (app package);
* `runStreamProcess` and the supervisor policy configured in `handleBaby`
  (app package).

State that lives in packages absent from the repository snapshot
(`pkg/baby`, `pkg/utils`) is modelled from the specification; each such
definition says so in its doc comment.
-/

namespace Nanit

/-! ### Log classifier: pkg/player/silencedetect.go

The Go code matches three RE2 regular expressions:

  ffmpegSilenceDetectPrefixRX = `^\[silencedetect\s@\s0x[0-9a-f]+\]\s+`
  ffmpegSilenceDetectStartRX  = `^silence_start:\s(-?[0-9]+(\.[0-9]+)?)$`
  ffmpegSilenceDetectEndRX    = `^silence_end:\s(-?[0-9]+(\.[0-9]+)?)`

All three are anchored at the start; the quantified subpatterns are greedy
and each greedy run is followed by a character its class cannot match, so
maximal munch computes exactly the leftmost-first (Go) match. We embed them
as deterministic maximal-munch scanners over `List Char`. -/

/-- RE2 whitespace class: in RE2, a backslash-s abbreviates the set
tab, newline, form feed, carriage return, space. -/
def isWS (c : Char) : Bool :=
  c = '\t' || c = '\n' || c = '\x0c' || c = '\r' || c = ' '

/-- The character class 0-9a-f of the tool-tag address. -/
def isHexLower (c : Char) : Bool :=
  ('0' ≤ c && c ≤ '9') || ('a' ≤ c && c ≤ 'f')

/-- The character class 0-9 of the silence timestamps. -/
def isDigitC (c : Char) : Bool :=
  '0' ≤ c && c ≤ '9'

/-- Match a literal character sequence, returning the remainder. -/
def lit : List Char → List Char → Option (List Char)
  | [], cs => some cs
  | _ :: _, [] => none
  | l :: ls, c :: cs => if c = l then lit ls cs else none

/-- Match exactly one character of the whitespace class. -/
def wsOne : List Char → Option (List Char)
  | [] => none
  | c :: cs => if isWS c then some cs else none

/-- Greedy `+` over a character class: at least one matching character,
then as many as possible. -/
def many1 (p : Char → Bool) : List Char → Option (List Char)
  | [] => none
  | c :: cs => if p c then some (cs.dropWhile p) else none

/-- Embeds `ffmpegSilenceDetectPrefixRX.FindString` followed by the slice
`line[len(prefix):]`: `some rest` is the line with the matched tool tag
removed, `none` means the tag pattern did not match (`FindString` returned
the empty string). -/
def matchSilenceTag (cs : List Char) : Option (List Char) :=
  (lit "[silencedetect".data cs).bind fun cs1 =>
  (wsOne cs1).bind fun cs2 =>
  (lit "@".data cs2).bind fun cs3 =>
  (wsOne cs3).bind fun cs4 =>
  (lit "0x".data cs4).bind fun cs5 =>
  (many1 isHexLower cs5).bind fun cs6 =>
  (lit "]".data cs6).bind fun cs7 =>
  many1 isWS cs7

/-- The number pattern `[0-9]+(\.[0-9]+)?`: greedy digits, then an optional
fractional group taken exactly when a dot followed by a digit comes next. -/
def numTail (cs : List Char) : Option (List Char) :=
  match many1 isDigitC cs with
  | none => none
  | some [] => some []
  | some (c :: r2) =>
    if c = '.' then
      match many1 isDigitC r2 with
      | some r3 => some r3
      | none => some (c :: r2)
    else some (c :: r2)

/-- The full number pattern `-?[0-9]+(\.[0-9]+)?`. -/
def numParse : List Char → Option (List Char)
  | [] => none
  | c :: cs => if c = '-' then numTail cs else numTail (c :: cs)

/-- Embeds `ffmpegSilenceDetectStartRX.MatchString`: the whole remainder must
be `silence_start:` + one whitespace + a number (the `$` anchor). -/
def matchStartBody (cs : List Char) : Bool :=
  match (lit "silence_start:".data cs).bind (fun r => (wsOne r).bind numParse) with
  | some [] => true
  | _ => false

/-- Embeds `ffmpegSilenceDetectEndRX.MatchString`: `silence_end:` + one
whitespace + a number, with the rest of the line unconstrained (this regex
has no `$` anchor). -/
def matchEndBody (cs : List Char) : Bool :=
  ((lit "silence_end:".data cs).bind (fun r => (wsOne r).bind numParse)).isSome

/-- The classification enum of silencedetect.go. -/
inductive ffmpegSilenceDetect where
  | ffmpegSilenceDetectEvent_unknown
  | ffmpegSilenceDetectEvent_start
  | ffmpegSilenceDetectEvent_end
  deriving DecidableEq

/-- Embeds `parseSilenceDetectLog` of pkg/player/silencedetect.go. -/
def parseSilenceDetectLog (line : String) : ffmpegSilenceDetect :=
  match matchSilenceTag line.data with
  | some rest =>
    if matchStartBody rest then .ffmpegSilenceDetectEvent_start
    else if matchEndBody rest then .ffmpegSilenceDetectEvent_end
    else .ffmpegSilenceDetectEvent_unknown
  | none => .ffmpegSilenceDetectEvent_unknown

/-- The trailing duration clause, following the spec's words: the spec
writes the end line as `silence end: <number>[, duration: <number>]`. -/
def specDurClause (cs : List Char) : Bool :=
  match (lit ", duration:".data cs).bind (fun r => (wsOne r).bind numParse) with
  | some [] => true
  | _ => false

/-- The spec's end-line shape: `silence_end: <n>` alone, or followed by
exactly a duration clause. (Comparison definition following the spec's
words; the code's regex instead leaves the rest of the line
unconstrained.) -/
def specEndBody (cs : List Char) : Bool :=
  match (lit "silence_end:".data cs).bind (fun r => (wsOne r).bind numParse) with
  | none => false
  | some [] => true
  | some r => specDurClause r

/-- The classifier exactly as the claim states it (comparison definition
following the spec's words): SilenceStart for tag + `silence_start: <n>`,
SilenceEnd for tag + `silence_end: <n>` with or without a trailing duration
clause, Unknown for every other line. -/
def specSilenceClassify (line : String) : ffmpegSilenceDetect :=
  match matchSilenceTag line.data with
  | some rest =>
    if matchStartBody rest then .ffmpegSilenceDetectEvent_start
    else if specEndBody rest then .ffmpegSilenceDetectEvent_end
    else .ffmpegSilenceDetectEvent_unknown
  | none => .ffmpegSilenceDetectEvent_unknown

/-- The fractional part of a written number: nothing, or a dot followed by
the fraction digits. -/
def fracChars : Option (List Char) → List Char
  | none => []
  | some fs => '.' :: fs

/-- A written number: optional minus, integer digits, optional fraction. -/
def numChars (neg : Bool) (ds : List Char) (frac : Option (List Char)) : List Char :=
  (if neg then ['-'] else []) ++ ds ++ fracChars frac

/-- Well-formedness of a written number: at least one integer digit, all
digits, and a nonempty all-digit fraction when one is present. -/
def NumOK (ds : List Char) (frac : Option (List Char)) : Prop :=
  ds ≠ [] ∧ (∀ c ∈ ds, isDigitC c = true) ∧
    (∀ fs, frac = some fs → fs ≠ [] ∧ ∀ c ∈ fs, isDigitC c = true)

/-- A written tool tag: `[silencedetect` + whitespace + `@` + whitespace +
`0x` + hex address + `]` + trailing whitespace run. -/
def tagChars (w1 w2 : Char) (hx ws : List Char) : List Char :=
  "[silencedetect".data ++ w1 :: '@' :: w2 :: '0' :: 'x' :: (hx ++ ']' :: ws)

/-- Well-formedness of a written tool tag. -/
def TagOK (w1 w2 : Char) (hx ws : List Char) : Prop :=
  isWS w1 = true ∧ isWS w2 = true ∧ hx ≠ [] ∧ (∀ c ∈ hx, isHexLower c = true) ∧
    ws ≠ [] ∧ (∀ c ∈ ws, isWS c = true)

/-- A line of the silence-start shape: tool tag, then exactly
`silence_start:` + one whitespace + a number. -/
def StartLine (line : String) : Prop :=
  ∃ w1 w2 hx ws w3 neg ds frac,
    TagOK w1 w2 hx ws ∧ isWS w3 = true ∧ NumOK ds frac ∧
    line.data = tagChars w1 w2 hx ws ++ "silence_start:".data ++ w3 :: numChars neg ds frac

/-- A line of the silence-end shape: tool tag, then `silence_end:` + one
whitespace + a number, then an arbitrary remainder. -/
def EndLine (line : String) : Prop :=
  ∃ w1 w2 hx ws w3 neg ds frac trail,
    TagOK w1 w2 hx ws ∧ isWS w3 = true ∧ NumOK ds frac ∧
    line.data = tagChars w1 w2 hx ws ++ "silence_end:".data ++
      w3 :: (numChars neg ds frac ++ trail)

/-! ### Stream liveness probe: dummyPlayer of pkg/app/player.go

`dummyPlayer` runs three concurrent activities: a process-wait goroutine, a
stderr tailer, and an FLV decoder goroutine, coordinated through channels
and the `exitingFlag` latch by a select loop. We embed the decoder goroutine
and the select loop as trace machines: the decoder is driven by the result
of the header decode and the list of tag-decode results (with the latch
value it observes at each step), the loop by the sequence of channel events
it receives. -/

/-- Outcome of one decode operation (`flv.NewDecoder` for the header,
`dec.Decode` for a tag): success, `io.EOF`, or any other error. -/
inductive DecodeStep where
  | ok
  | eofErr
  | otherErr
  deriving DecidableEq

/-- Observable actions of the decoder goroutine. `updateStreamAlive` stands
for `app.BabyStateManager.Update(babyUID, SetIsStreamAlive(true))`;
`sendDecoderErr` for `decoderC <- err`. -/
inductive DecoderAct where
  | warnClosedPipe
  | warnUnableDecode
  | warnFailedDecodeTag
  | updateStreamAlive
  | sendDecoderErr
  deriving DecidableEq

/-- The FLV tag-decode loop of the decoder goroutine (player.go 82-97).
`flag i` is the value of `exitingFlag` observed at the i-th decode. On a
non-EOF error with the latch unset the goroutine warns, sends on `decoderC`
and returns; on EOF it only warns and keeps looping; with the latch set it
does nothing and keeps looping. -/
def tagLoop (flag : Nat → Bool) : Nat → List DecodeStep → List DecoderAct
  | _, [] => []
  | i, .ok :: rs => tagLoop flag (i + 1) rs
  | i, .eofErr :: rs =>
    if flag i then tagLoop flag (i + 1) rs
    else .warnClosedPipe :: tagLoop flag (i + 1) rs
  | i, .otherErr :: rs =>
    if flag i then tagLoop flag (i + 1) rs
    else [.warnFailedDecodeTag, .sendDecoderErr]

/-- The decoder goroutine of dummyPlayer (player.go 56-98): header decode
via `flv.NewDecoder`, then on success one liveness update and the tag-decode
loop; on header failure, a warning and a send on `decoderC` unless the latch
is already set. -/
def decoderRoutine (flag : Nat → Bool) (header : DecodeStep)
    (tags : List DecodeStep) : List DecoderAct :=
  match header with
  | .ok => .updateStreamAlive :: tagLoop flag 1 tags
  | .eofErr => if flag 0 then [] else [.warnClosedPipe, .sendDecoderErr]
  | .otherErr => if flag 0 then [] else [.warnUnableDecode, .sendDecoderErr]

/-- How many liveness-Alive updates a decoder trace performs. -/
def countAliveActs : List DecoderAct → Nat
  | [] => 0
  | .updateStreamAlive :: r => countAliveActs r + 1
  | _ :: r => countAliveActs r

/-- Modelled from the spec: `utils.LogTailer` (pkg/utils is not in the
snapshot) — a bounded ring buffer keeping the last `n` lines of the
diagnostic channel. `dummyPlayer` constructs it with capacity 3. -/
def logTail (n : Nat) (lines : List String) : List String :=
  lines.drop (lines.length - n)

/-- Events the select loop of dummyPlayer can receive: the process-wait
goroutine signalling exit (with the exit code `cmd.ProcessState.ExitCode()`
read afterwards), context cancellation, or an error sent by the decoder
goroutine. -/
inductive LoopEvent where
  | exited (code : Int)
  | ctxDone
  | decoderErr
  deriving DecidableEq

/-- Observable actions of the select loop (player.go 100-124).
`reportFailure` is the Error-level "Player exited" log carrying the exit
code and the stderr tail; `warnTerminated` the Warn-level "Player
terminated" log for the sentinel code. -/
inductive LoopAct where
  | warnTerminated
  | reportFailure (code : Int) (tail : List String)
  | debugCancelKill
  | debugDecoderKill
  | killProc
  deriving DecidableEq

/-- The loop-relevant state: the `exitingFlag` latch and whether we have
killed the process. -/
structure LoopState where
  exiting : Bool
  killed : Bool
  deriving DecidableEq

/-- State transition of the select loop on one event. -/
def loopNext (s : LoopState) : LoopEvent → LoopState
  | .exited _ => { s with exiting := true }
  | .ctxDone => if s.exiting then s else { exiting := true, killed := true }
  | .decoderErr => { s with killed := true }

/-- Actions of the select loop on one event. On exit, code -1 (the sentinel
for a killed process) is only warned about; any other code is reported with
the bounded stderr tail. On cancellation with the latch unset, the latch is
set and the process killed. On a decoder error the process is killed
unconditionally. -/
def loopActs (stderrLines : List String) (s : LoopState) : LoopEvent → List LoopAct
  | .exited code =>
    if code = -1 then [.warnTerminated]
    else [.reportFailure code (logTail 3 stderrLines)]
  | .ctxDone => if s.exiting then [] else [.debugCancelKill, .killProc]
  | .decoderErr => [.debugDecoderKill, .killProc]

/-- Whether the loop returns after the event (only the exit branch does). -/
def loopStops : LoopEvent → Bool
  | .exited _ => true
  | .ctxDone => false
  | .decoderErr => false

/-- The select loop of dummyPlayer run over a sequence of events. -/
def loopRun (stderrLines : List String) (s : LoopState) : List LoopEvent → List LoopAct
  | [] => []
  | e :: es =>
    loopActs stderrLines s e ++
      (if loopStops e then [] else loopRun stderrLines (loopNext s e) es)

/-- Recognizes the probe-failure report action. -/
def isReportAct : LoopAct → Bool
  | .reportFailure _ _ => true
  | _ => false

/-- A trace with no probe-failure report. -/
def reportFree (acts : List LoopAct) : Bool :=
  acts.all fun a => !isReportAct a

/-- Well-formedness of an event sequence relative to the OS: once we have
killed the process, its exit code reads as the sentinel -1 (Go's
`ProcessState.ExitCode()` for a signal-killed process). -/
def wfEventsB (s : LoopState) : List LoopEvent → Bool
  | [] => true
  | e :: es =>
    (match e with
     | .exited c => !s.killed || decide (c = -1)
     | _ => true) && wfEventsB (loopNext s e) es

/-! ### Watchdog loop: runWatchDog (app package)

`runWatchDog` selects between a timer channel and context cancellation. A
timer fire runs the probe to completion (the `player.Run` call is
synchronous and receives the watchdog's own context), then marks the device
Unhealthy in the state store and resets the timer to 5 seconds; cancellation
returns. -/

/-- Events the watchdog select can receive. `timerFire` stands for the timer
firing followed by the synchronous probe invocation running to completion
(for whatever reason it ended). -/
inductive WatchEvent where
  | timerFire
  | ctxDone
  deriving DecidableEq

/-- Observable actions of the watchdog loop. `probeInvoke` is the
`player.Run` call (given the watchdog's own context), `updateUnhealthy` the
`Update(babyUID, SetStreamState(Unhealthy))` store write, `timerReset n` the
`timer.Reset` with `n` seconds. -/
inductive WatchAct where
  | probeInvoke
  | updateUnhealthy
  | timerReset (secs : Nat)
  | watchdogReturn
  deriving DecidableEq

/-- Embeds the loop body of `runWatchDog`. -/
def runWatchDog : List WatchEvent → List WatchAct
  | [] => []
  | .timerFire :: es =>
    .probeInvoke :: .updateUnhealthy :: .timerReset 5 :: runWatchDog es
  | .ctxDone :: _ => [.watchdogReturn]

/-- Count of probe invocations in a watchdog trace. -/
def countProbeActs : List WatchAct → Nat
  | [] => 0
  | .probeInvoke :: r => countProbeActs r + 1
  | _ :: r => countProbeActs r

/-- Count of Unhealthy store writes in a watchdog trace. -/
def countUnhealthyActs : List WatchAct → Nat
  | [] => 0
  | .updateUnhealthy :: r => countUnhealthyActs r + 1
  | _ :: r => countUnhealthyActs r

/-! ### Device state: pkg/baby (not in the snapshot)

Modelled from the spec: the Device State Record with `streamLiveness` enum
Unknown/Alive/Unhealthy and `streamRequestState` enum
NotRequested/Requested/RequestFailed; fields are optional (partial-merge
deltas) and getters return the default (first) enum value when unset. -/

/-- Modelled from the spec: the stream liveness enum of pkg/baby
(`StreamState_Unknown`, `StreamState_Alive`, `StreamState_Unhealthy`). -/
inductive StreamState where
  | streamState_unknown
  | streamState_alive
  | streamState_unhealthy
  deriving DecidableEq

/-- Modelled from the spec: the stream request enum of pkg/baby. -/
inductive StreamRequestState where
  | notRequested
  | requested
  | requestFailed
  deriving DecidableEq

/-- Modelled from the spec: the per-device state record (only the fields the
verified components read). A `none` field is one the delta or record leaves
unset. -/
structure BabyState where
  streamState : Option StreamState
  streamRequestState : Option StreamRequestState
  localStreamingInitiated : Option Bool
  deriving DecidableEq

/-- Modelled from the spec: getter with the default enum value when unset. -/
def BabyState.getStreamState (s : BabyState) : StreamState :=
  s.streamState.getD .streamState_unknown

/-- Modelled from the spec: getter with the default enum value when unset. -/
def BabyState.getStreamRequestState (s : BabyState) : StreamRequestState :=
  s.streamRequestState.getD .notRequested

/-! ### Stream request orchestrator: runWebsocket (app package) -/

/-- Embeds the state-store subscription callback registered by
`runWebsocket`: on an update whose delta sets the managed device's stream
state to Unhealthy, re-request streaming unless the currently stored request
state is RequestFailed. `store` is the state manager snapshot the callback
re-reads (`GetBabyState`); the result is whether
`initializeLocalStreaming` is launched. -/
def watchLivenessCallback (babyUID : String) (store : String → BabyState)
    (updatedBabyUID : String) (stateUpdate : BabyState) : Bool :=
  if updatedBabyUID = babyUID ∧ stateUpdate.streamState = some .streamState_unhealthy then
    if (store babyUID).getStreamRequestState ≠ .requestFailed then true else false
  else false

/-- Embeds the initial-connection decision of `runWebsocket`: request
streaming when the stored stream state is not Alive, unless a request is
already pending — except that an Unhealthy stream is re-requested even
then. `babyState` is the stored record read on connection. -/
def initialStreamRequest (babyState : BabyState) : Bool :=
  if babyState.getStreamState ≠ .streamState_alive then
    if babyState.getStreamRequestState ≠ .requested ∨
        babyState.getStreamState = .streamState_unhealthy then true
    else false
  else false

/-! ### Resilient task supervisor: RunWithPerseverance (pkg/utils, not in
the snapshot) and its configuration in handleBaby (pkg/app/app.go) -/

/-- The cooldown schedule `handleBaby` configures for the stream processor
(pkg/app/app.go 90-96), in seconds. -/
def streamProcessorCooldown : List Nat := [2, 30, 120, 900, 3600]

/-- The reset threshold `handleBaby` configures (2 seconds). -/
def streamProcessorResetThreshold : Nat := 2

/-- Modelled from the spec: the wait sequence of `utils.RunWithPerseverance`
(pkg/utils is not in the snapshot), per spec section 4.3. Each entry of
`durs` is the wall-clock duration of one consecutive failing run; the result
is the cooldown wait after each run. A failing run of ordinal `ord` waits
`cooldown[min (ord-1) (len-1)]`; a run lasting at least `threshold` resets
the ordinal to 1 for the next run, otherwise the ordinal increments. -/
def perseveranceWaits (cooldown : List Nat) (threshold : Nat) :
    Nat → List Nat → List Nat
  | _, [] => []
  | ord, d :: ds =>
    cooldown.getD (min (ord - 1) (cooldown.length - 1)) 0 ::
      perseveranceWaits cooldown threshold (if threshold ≤ d then 1 else ord + 1) ds

/-! ### Supervised stream processor run: runStreamProcess (app package)

`runStreamProcess` starts the external command and selects once between the
process-wait channel and attempt cancellation. -/

/-- The event deciding the single select of `runStreamProcess`: `cmd.Wait`
returning a non-nil error, `cmd.Wait` returning nil (clean status-0 exit),
or the attempt context being cancelled first. -/
inductive ProcEvent where
  | exitedErr
  | exitedClean
  | attemptCancelled
  deriving DecidableEq

/-- Observable actions of `runStreamProcess`. `attemptFail b` is the
`attempt.Fail(err)` call, with `b` recording that the error passed is
non-nil. -/
inductive ProcAct where
  | logExitError
  | logStatusZero
  | attemptFail (errNonNil : Bool)
  | logTerminating
  | killStreamProc
  deriving DecidableEq

/-- Embeds the select of `runStreamProcess` (app.go 153-170): a non-nil exit
error is logged and failed; a nil error (status 0) is logged and failed with
a fresh non-nil error; cancellation logs and kills the process without
failing the attempt. -/
def runStreamProcess : ProcEvent → List ProcAct
  | .exitedErr => [.logExitError, .attemptFail true]
  | .exitedClean => [.logStatusZero, .attemptFail true]
  | .attemptCancelled => [.logTerminating, .killStreamProc]

/-- Count of `attempt.Fail` calls in a run trace. -/
def countFailActs : List ProcAct → Nat
  | [] => 0
  | .attemptFail _ :: r => countFailActs r + 1
  | _ :: r => countFailActs r

theorem lit_app (l r : List Char) : lit l (l ++ r) = some r := by
  induction l with
  | nil => rfl
  | cons c ls ih => simp [lit, ih]

theorem lit_eq_some (l : List Char) :
    ∀ cs r, lit l cs = some r → cs = l ++ r := by
  induction l with
  | nil =>
    intro cs r h
    simp [lit] at h
    simp [h]
  | cons c ls ih =>
    intro cs r h
    cases cs with
    | nil => simp [lit] at h
    | cons a as =>
      by_cases hac : a = c
      · subst hac
        simp [lit] at h
        simp [ih as r h]
      · simp [lit, hac] at h

theorem wsOne_app (c : Char) (r : List Char) (h : isWS c = true) :
    wsOne (c :: r) = some r := by
  simp [wsOne, h]

theorem wsOne_eq_some (cs r : List Char) (h : wsOne cs = some r) :
    ∃ c, cs = c :: r ∧ isWS c = true := by
  cases cs with
  | nil => simp [wsOne] at h
  | cons a as =>
    by_cases ha : isWS a
    · simp [wsOne, ha] at h
      exact ⟨a, by simp [h], ha⟩
    · simp [wsOne, ha] at h

theorem mem_takeWhile_pred (p : Char → Bool) :
    ∀ (l : List Char) (c : Char), c ∈ l.takeWhile p → p c = true := by
  intro l
  induction l with
  | nil => intro c h; simp [List.takeWhile] at h
  | cons a as ih =>
    intro c h
    by_cases ha : p a
    · simp [List.takeWhile, ha] at h
      rcases h with h | h
      · simpa [h] using ha
      · exact ih c h
    · simp [List.takeWhile, ha] at h

theorem head_dropWhile_false (p : Char → Bool) :
    ∀ (l : List Char) (c : Char), (l.dropWhile p).head? = some c → p c = false := by
  intro l
  induction l with
  | nil => intro c h; simp [List.dropWhile] at h
  | cons a as ih =>
    intro c h
    by_cases ha : p a
    · simp [List.dropWhile, ha] at h
      exact ih c h
    · simp [List.dropWhile, ha] at h
      subst h
      simpa using ha

theorem dropWhile_append_not (p : Char → Bool) :
    ∀ (t r : List Char), (∀ c ∈ t, p c = true) →
      (∀ c, r.head? = some c → p c = false) → (t ++ r).dropWhile p = r := by
  intro t
  induction t with
  | nil =>
    intro r _ hr
    cases r with
    | nil => rfl
    | cons b bs =>
      have hb : p b = false := hr b rfl
      simp [List.dropWhile, hb]
  | cons a as ih =>
    intro r ht hr
    have ha : p a = true := ht a (by simp)
    simp [List.dropWhile, ha]
    exact ih r (fun c hc => ht c (by simp [hc])) hr

theorem many1_app (p : Char → Bool) (t r : List Char) (hne : t ≠ [])
    (ht : ∀ c ∈ t, p c = true) (hr : ∀ c, r.head? = some c → p c = false) :
    many1 p (t ++ r) = some r := by
  cases t with
  | nil => exact absurd rfl hne
  | cons a as =>
    have ha : p a = true := ht a (by simp)
    simp [many1, ha]
    exact dropWhile_append_not p as r (fun c hc => ht c (by simp [hc])) hr

theorem many1_eq_some (p : Char → Bool) (cs r : List Char)
    (h : many1 p cs = some r) :
    ∃ t, t ≠ [] ∧ (∀ c ∈ t, p c = true) ∧ cs = t ++ r ∧
      (∀ c, r.head? = some c → p c = false) := by
  cases cs with
  | nil => simp [many1] at h
  | cons a as =>
    by_cases ha : p a
    · simp [many1, ha] at h
      refine ⟨a :: as.takeWhile p, by simp, ?_, ?_, ?_⟩
      · intro c hc
        rcases List.mem_cons.mp hc with h1 | h1
        · simpa [h1] using ha
        · exact mem_takeWhile_pred p as c h1
      · simp [← h, List.takeWhile_append_dropWhile]
      · intro c hc
        exact head_dropWhile_false p as c (by simpa [← h] using hc)
    · simp [many1, ha] at h

theorem dropWhile_all (p : Char → Bool) (l : List Char)
    (h : ∀ c ∈ l, p c = true) : l.dropWhile p = [] := by
  have := dropWhile_append_not p l [] h (by intro c hc; simp at hc)
  simpa using this

theorem numTail_exact (ds : List Char) (frac : Option (List Char))
    (hne : ds ≠ []) (hds : ∀ c ∈ ds, isDigitC c = true)
    (hfrac : ∀ fs, frac = some fs → fs ≠ [] ∧ ∀ c ∈ fs, isDigitC c = true) :
    numTail (ds ++ fracChars frac) = some [] := by
  cases frac with
  | none =>
    have h1 : many1 isDigitC (ds ++ fracChars none) = some [] := by
      apply many1_app isDigitC ds [] hne hds
      intro c hc
      simp at hc
    simp [numTail, h1]
  | some fs =>
    obtain ⟨hfs, hfd⟩ := hfrac fs rfl
    have h1 : many1 isDigitC (ds ++ fracChars (some fs)) = some ('.' :: fs) := by
      apply many1_app isDigitC ds ('.' :: fs) hne hds
      intro c hc
      simp [fracChars] at hc ⊢
      simp [← hc, isDigitC]
    have h2 : many1 isDigitC fs = some [] := by
      have := many1_app isDigitC fs [] hfs hfd (by intro c hc; simp at hc)
      simpa using this
    simp [numTail, h1, h2]

theorem numTail_cons_digit (c : Char) (rest : List Char)
    (h : isDigitC c = true) : (numTail (c :: rest)).isSome = true := by
  have h1 : many1 isDigitC (c :: rest) = some (rest.dropWhile isDigitC) := by
    simp [many1, h]
  cases hr : rest.dropWhile isDigitC with
  | nil => simp [numTail, h1, hr]
  | cons b bs =>
    by_cases hb : b = '.'
    · cases h2 : many1 isDigitC bs with
      | none => simp [numTail, h1, hr, hb, h2]
      | some r3 => simp [numTail, h1, hr, hb, h2]
    · simp [numTail, h1, hr, hb]

theorem minus_not_digit : isDigitC '-' = false := by decide

theorem numParse_exact (neg : Bool) (ds : List Char) (frac : Option (List Char))
    (hne : ds ≠ []) (hds : ∀ c ∈ ds, isDigitC c = true)
    (hfrac : ∀ fs, frac = some fs → fs ≠ [] ∧ ∀ c ∈ fs, isDigitC c = true) :
    numParse (numChars neg ds frac) = some [] := by
  cases neg with
  | true =>
    simp [numChars, numParse]
    exact numTail_exact ds frac hne hds hfrac
  | false =>
    cases ds with
    | nil => exact absurd rfl hne
    | cons d ds' =>
      have hd : isDigitC d = true := hds d (by simp)
      have hdm : ¬ d = '-' := by
        intro he
        rw [he] at hd
        simp [minus_not_digit] at hd
      simp [numChars, numParse, hdm]
      have := numTail_exact (d :: ds') frac (by simp) hds hfrac
      simpa using this

theorem numParse_isSome (neg : Bool) (ds : List Char) (frac : Option (List Char))
    (t : List Char) (hne : ds ≠ []) (hds : ∀ c ∈ ds, isDigitC c = true) :
    (numParse (numChars neg ds frac ++ t)).isSome = true := by
  cases ds with
  | nil => exact absurd rfl hne
  | cons d ds' =>
    have hd : isDigitC d = true := hds d (by simp)
    have hdm : ¬ d = '-' := by
      intro he
      rw [he] at hd
      simp [minus_not_digit] at hd
    cases neg with
    | true =>
      simp [numChars, numParse]
      exact numTail_cons_digit d (ds' ++ (fracChars frac ++ t)) hd
    | false =>
      simp [numChars, numParse, hdm]
      exact numTail_cons_digit d (ds' ++ (fracChars frac ++ t)) hd

theorem numTail_eq_some (cs r : List Char) (h : numTail cs = some r) :
    ∃ ds frac, ds ≠ [] ∧ (∀ c ∈ ds, isDigitC c = true) ∧
      (∀ fs, frac = some fs → fs ≠ [] ∧ ∀ c ∈ fs, isDigitC c = true) ∧
      cs = ds ++ fracChars frac ++ r := by
  cases hm : many1 isDigitC cs with
  | none => simp [numTail, hm] at h
  | some r0 =>
    obtain ⟨ds, hdsne, hdsall, hcs, _⟩ := many1_eq_some isDigitC cs r0 hm
    cases r0 with
    | nil =>
      simp [numTail, hm] at h
      exact ⟨ds, none, hdsne, hdsall, by simp, by simp [hcs, fracChars, ← h]⟩
    | cons c r2 =>
      by_cases hc : c = '.'
      · subst hc
        cases hm2 : many1 isDigitC r2 with
        | none =>
          simp [numTail, hm, hm2] at h
          exact ⟨ds, none, hdsne, hdsall, by simp,
            by simp [hcs, fracChars, ← h]⟩
        | some r3 =>
          simp [numTail, hm, hm2] at h
          obtain ⟨fs, hfsne, hfsall, hr2, _⟩ := many1_eq_some isDigitC r2 r3 hm2
          refine ⟨ds, some fs, hdsne, hdsall, ?_, ?_⟩
          · intro fs' hfs'
            cases hfs'
            exact ⟨hfsne, hfsall⟩
          · simp [hcs, hr2, fracChars, ← h]
      · simp [numTail, hm, hc] at h
        exact ⟨ds, none, hdsne, hdsall, by simp, by simp [hcs, fracChars, ← h]⟩

theorem numParse_eq_some (cs r : List Char) (h : numParse cs = some r) :
    ∃ neg ds frac, ds ≠ [] ∧ (∀ c ∈ ds, isDigitC c = true) ∧
      (∀ fs, frac = some fs → fs ≠ [] ∧ ∀ c ∈ fs, isDigitC c = true) ∧
      cs = numChars neg ds frac ++ r := by
  cases cs with
  | nil => simp [numParse] at h
  | cons a as =>
    by_cases ha : a = '-'
    · subst ha
      simp [numParse] at h
      obtain ⟨ds, frac, h1, h2, h3, h4⟩ := numTail_eq_some as r h
      exact ⟨true, ds, frac, h1, h2, h3, by simp [numChars, h4]⟩
    · simp [numParse, ha] at h
      obtain ⟨ds, frac, h1, h2, h3, h4⟩ := numTail_eq_some (a :: as) r h
      exact ⟨false, ds, frac, h1, h2, h3, by simp [numChars, h4]⟩

theorem tag_app (w1 w2 : Char) (hx ws rest : List Char)
    (hok : TagOK w1 w2 hx ws)
    (hrest : ∀ c, rest.head? = some c → isWS c = false) :
    matchSilenceTag (tagChars w1 w2 hx ws ++ rest) = some rest := by
  obtain ⟨hw1, hw2, hxne, hxall, hwsne, hwsall⟩ := hok
  have hx1 : many1 isHexLower (hx ++ ']' :: (ws ++ rest)) =
      some (']' :: (ws ++ rest)) := by
    apply many1_app isHexLower hx (']' :: (ws ++ rest)) hxne hxall
    intro c hc
    simp at hc
    simp [← hc]
    decide
  have hws1 : many1 isWS (ws ++ rest) = some rest :=
    many1_app isWS ws rest hwsne hwsall hrest
  simp only [matchSilenceTag, tagChars, List.append_assoc, List.cons_append,
    List.nil_append]
  simp [lit, wsOne, hw1, hw2, hx1, hws1]

theorem tag_eq_some (cs rest : List Char) (h : matchSilenceTag cs = some rest) :
    ∃ w1 w2 hx ws, TagOK w1 w2 hx ws ∧ cs = tagChars w1 w2 hx ws ++ rest ∧
      (∀ c, rest.head? = some c → isWS c = false) := by
  simp only [matchSilenceTag, Option.bind_eq_some] at h
  obtain ⟨cs1, h1, cs2, h2, cs3, h3, cs4, h4, cs5, h5, cs6, h6, cs7, h7, h8⟩ := h
  have e1 := lit_eq_some _ _ _ h1
  obtain ⟨w1, e2, hw1⟩ := wsOne_eq_some _ _ h2
  have e3 := lit_eq_some _ _ _ h3
  obtain ⟨w2, e4, hw2⟩ := wsOne_eq_some _ _ h4
  have e5 := lit_eq_some _ _ _ h5
  obtain ⟨hx, hxne, hxall, e6, _⟩ := many1_eq_some _ _ _ h6
  have e7 := lit_eq_some _ _ _ h7
  obtain ⟨ws, hwsne, hwsall, e8, hhead⟩ := many1_eq_some _ _ _ h8
  refine ⟨w1, w2, hx, ws, ⟨hw1, hw2, hxne, hxall, hwsne, hwsall⟩, ?_, hhead⟩
  subst e8 e7 e6 e5 e4 e3 e2 e1
  simp [tagChars, List.append_assoc]

theorem startBody_app (w3 : Char) (neg : Bool) (ds : List Char)
    (frac : Option (List Char)) (hw3 : isWS w3 = true)
    (hne : ds ≠ []) (hds : ∀ c ∈ ds, isDigitC c = true)
    (hfrac : ∀ fs, frac = some fs → fs ≠ [] ∧ ∀ c ∈ fs, isDigitC c = true) :
    matchStartBody ("silence_start:".data ++ w3 :: numChars neg ds frac) = true := by
  have hnum := numParse_exact neg ds frac hne hds hfrac
  unfold matchStartBody
  rw [lit_app]
  simp only [Option.some_bind]
  rw [wsOne_app w3 _ hw3]
  simp only [Option.some_bind]
  rw [hnum]

theorem startBody_eq_true (cs : List Char) (h : matchStartBody cs = true) :
    ∃ w3 neg ds frac, isWS w3 = true ∧ ds ≠ [] ∧
      (∀ c ∈ ds, isDigitC c = true) ∧
      (∀ fs, frac = some fs → fs ≠ [] ∧ ∀ c ∈ fs, isDigitC c = true) ∧
      cs = "silence_start:".data ++ w3 :: numChars neg ds frac := by
  simp only [matchStartBody] at h
  cases hb : (lit "silence_start:".data cs).bind (fun r => (wsOne r).bind numParse) with
  | none => rw [hb] at h; simp at h
  | some r =>
    cases r with
    | cons a as => rw [hb] at h; simp at h
    | nil =>
      simp only [Option.bind_eq_some] at hb
      obtain ⟨cs1, h1, cs2, h2, h3⟩ := hb
      have e1 := lit_eq_some _ _ _ h1
      obtain ⟨w3, e2, hw3⟩ := wsOne_eq_some _ _ h2
      obtain ⟨neg, ds, frac, hne, hds, hfrac, e3⟩ := numParse_eq_some _ _ h3
      refine ⟨w3, neg, ds, frac, hw3, hne, hds, hfrac, ?_⟩
      subst e1 e2
      simp [e3]

theorem endBody_app (w3 : Char) (neg : Bool) (ds : List Char)
    (frac : Option (List Char)) (trail : List Char) (hw3 : isWS w3 = true)
    (hne : ds ≠ []) (hds : ∀ c ∈ ds, isDigitC c = true) :
    matchEndBody ("silence_end:".data ++ w3 :: (numChars neg ds frac ++ trail)) = true := by
  have hnum := numParse_isSome neg ds frac trail hne hds
  unfold matchEndBody
  rw [lit_app]
  simp only [Option.some_bind]
  rw [wsOne_app w3 _ hw3]
  simp only [Option.some_bind]
  exact hnum

theorem endBody_eq_true (cs : List Char) (h : matchEndBody cs = true) :
    ∃ w3 neg ds frac trail, isWS w3 = true ∧ ds ≠ [] ∧
      (∀ c ∈ ds, isDigitC c = true) ∧
      (∀ fs, frac = some fs → fs ≠ [] ∧ ∀ c ∈ fs, isDigitC c = true) ∧
      cs = "silence_end:".data ++ w3 :: (numChars neg ds frac ++ trail) := by
  simp only [matchEndBody, Option.isSome_iff_exists] at h
  obtain ⟨r, hb⟩ := h
  simp only [Option.bind_eq_some] at hb
  obtain ⟨cs1, h1, cs2, h2, h3⟩ := hb
  have e1 := lit_eq_some _ _ _ h1
  obtain ⟨w3, e2, hw3⟩ := wsOne_eq_some _ _ h2
  obtain ⟨neg, ds, frac, hne, hds, hfrac, e3⟩ := numParse_eq_some _ _ h3
  refine ⟨w3, neg, ds, frac, r, hw3, hne, hds, hfrac, ?_⟩
  subst e1 e2
  simp [e3]

theorem startBody_on_end_false (X : List Char) :
    matchStartBody ("silence_end:".data ++ X) = false := by
  simp only [matchStartBody]
  have h : lit "silence_start:".data ("silence_end:".data ++ X) = none := by
    simp [lit]
  rw [h]
  rfl

theorem parse_start_iff (line : String) :
    parseSilenceDetectLog line = .ffmpegSilenceDetectEvent_start ↔ StartLine line := by
  constructor
  · intro h
    unfold parseSilenceDetectLog at h
    cases hm : matchSilenceTag line.data with
    | none => rw [hm] at h; simp at h
    | some rest =>
      rw [hm] at h
      by_cases hs : matchStartBody rest
      · obtain ⟨w1, w2, hx, ws, hok, hcs, _⟩ := tag_eq_some _ _ hm
        obtain ⟨w3, neg, ds, frac, hw3, hne, hds, hfrac, hrest⟩ :=
          startBody_eq_true _ hs
        refine ⟨w1, w2, hx, ws, w3, neg, ds, frac, hok, hw3,
          ⟨hne, hds, hfrac⟩, ?_⟩
        simp [hcs, hrest, List.append_assoc]
      · simp only [hs, if_false] at h
        by_cases he : matchEndBody rest
        · simp [he] at h
        · simp [he] at h
  · rintro ⟨w1, w2, hx, ws, w3, neg, ds, frac, hok, hw3,
      ⟨hne, hds, hfrac⟩, hline⟩
    have h1 : matchSilenceTag line.data =
        some ("silence_start:".data ++ w3 :: numChars neg ds frac) := by
      rw [hline, List.append_assoc]
      apply tag_app _ _ _ _ _ hok
      intro c hc
      simp at hc
      subst hc
      decide
    have h2 := startBody_app w3 neg ds frac hw3 hne hds hfrac
    simp at h2
    simp [parseSilenceDetectLog, h1, h2]

theorem parse_end_iff (line : String) :
    parseSilenceDetectLog line = .ffmpegSilenceDetectEvent_end ↔ EndLine line := by
  constructor
  · intro h
    unfold parseSilenceDetectLog at h
    cases hm : matchSilenceTag line.data with
    | none => rw [hm] at h; simp at h
    | some rest =>
      rw [hm] at h
      by_cases hs : matchStartBody rest
      · simp [hs] at h
      · simp only [hs, if_false] at h
        by_cases he : matchEndBody rest
        · obtain ⟨w1, w2, hx, ws, hok, hcs, _⟩ := tag_eq_some _ _ hm
          obtain ⟨w3, neg, ds, frac, trail, hw3, hne, hds, hfrac, hrest⟩ :=
            endBody_eq_true _ he
          refine ⟨w1, w2, hx, ws, w3, neg, ds, frac, trail, hok, hw3,
            ⟨hne, hds, hfrac⟩, ?_⟩
          simp [hcs, hrest, List.append_assoc]
        · simp [he] at h
  · rintro ⟨w1, w2, hx, ws, w3, neg, ds, frac, trail, hok, hw3,
      ⟨hne, hds, hfrac⟩, hline⟩
    have h1 : matchSilenceTag line.data =
        some ("silence_end:".data ++ w3 :: (numChars neg ds frac ++ trail)) := by
      rw [hline, List.append_assoc]
      apply tag_app _ _ _ _ _ hok
      intro c hc
      simp at hc
      subst hc
      decide
    have h2 := startBody_on_end_false (w3 :: (numChars neg ds frac ++ trail))
    have h3 := endBody_app w3 neg ds frac trail hw3 hne hds
    simp at h2 h3
    simp [parseSilenceDetectLog, h1, h2, h3]

/-- C1 (amended). The log classifier returns SilenceStart exactly for lines
of the shape tool-tag + `silence_start: <n>` (nothing after the number),
SilenceEnd exactly for lines of the shape tool-tag + `silence_end: <n>`
followed by any remainder whatsoever (a duration clause, other text, or
nothing — the end regex does not constrain the rest of the line), and
Unknown for every other line, including tag-only and no-tag lines; `<n>` is
an optionally negative, optionally fractional decimal. -/
theorem c1_log_classifier (line : String) :
    (parseSilenceDetectLog line = .ffmpegSilenceDetectEvent_start ↔ StartLine line) ∧
    (parseSilenceDetectLog line = .ffmpegSilenceDetectEvent_end ↔ EndLine line) ∧
    (parseSilenceDetectLog line = .ffmpegSilenceDetectEvent_unknown ↔
      ¬ StartLine line ∧ ¬ EndLine line) := by
  refine ⟨parse_start_iff line, parse_end_iff line, ?_, ?_⟩
  · intro h
    constructor
    · intro hS
      have := (parse_start_iff line).mpr hS
      rw [h] at this
      simp at this
    · intro hE
      have := (parse_end_iff line).mpr hE
      rw [h] at this
      simp at this
  · rintro ⟨hnS, hnE⟩
    cases hp : parseSilenceDetectLog line with
    | ffmpegSilenceDetectEvent_unknown => rfl
    | ffmpegSilenceDetectEvent_start =>
      exact absurd ((parse_start_iff line).mp hp) hnS
    | ffmpegSilenceDetectEvent_end =>
      exact absurd ((parse_end_iff line).mp hp) hnE

/-- C1 counterexample. The claim says any line other than the two stated
shapes classifies Unknown, and reads the end shape as `silence_end: <n>`
with or without a trailing duration clause. On the line
`[silencedetect @ 0xabc] silence_end: 1!` the code classifies SilenceEnd
(the end regex is not anchored at the end of the line), while the
classification the claim describes — here `specSilenceClassify` — is
Unknown. -/
theorem c1_counterexample :
    parseSilenceDetectLog "[silencedetect @ 0xabc] silence_end: 1!" =
      .ffmpegSilenceDetectEvent_end ∧
    specSilenceClassify "[silencedetect @ 0xabc] silence_end: 1!" =
      .ffmpegSilenceDetectEvent_unknown := by
  exact ⟨rfl, rfl⟩

theorem tagLoop_no_alive (flag : Nat → Bool) :
    ∀ (rs : List DecodeStep) (i : Nat), countAliveActs (tagLoop flag i rs) = 0 := by
  intro rs
  induction rs with
  | nil => intro i; rfl
  | cons r rs ih =>
    intro i
    cases r with
    | ok => simp [tagLoop, ih]
    | eofErr =>
      by_cases hf : flag i
      · simp [tagLoop, hf, ih]
      · simp [tagLoop, hf, countAliveActs, ih]
    | otherErr =>
      by_cases hf : flag i
      · simp [tagLoop, hf, ih]
      · simp [tagLoop, hf, countAliveActs]

/-- C2. The probe's decoder activity reports liveness Alive into the state
store exactly once when the container-header decode succeeds — however many
payload tags are decoded afterwards, and whatever the latch does — and zero
times when the header decode never succeeds. -/
theorem c2_alive_reported_once (flag : Nat → Bool) (header : DecodeStep)
    (tags : List DecodeStep) :
    countAliveActs (decoderRoutine flag header tags) =
      if header = .ok then 1 else 0 := by
  cases header with
  | ok => simp [decoderRoutine, countAliveActs, tagLoop_no_alive]
  | eofErr =>
    by_cases hf : flag 0
    · simp [decoderRoutine, hf, countAliveActs]
    · simp [decoderRoutine, hf, countAliveActs]
  | otherErr =>
    by_cases hf : flag 0
    · simp [decoderRoutine, hf, countAliveActs]
    · simp [decoderRoutine, hf, countAliveActs]

/-- C3. When the probe's external process exits on its own (the first event
the select loop sees is the exit), the sentinel code -1 yields only the
expected-termination warning, while every other exit code — zero included —
yields the probe-failure report carrying the bounded stderr tail (at most
its 3-line capacity). -/
theorem c3_exit_classification (code : Int) (stderrLines : List String)
    (rest : List LoopEvent) :
    loopRun stderrLines ⟨false, false⟩ (.exited code :: rest) =
      (if code = -1 then [.warnTerminated]
       else [.reportFailure code (logTail 3 stderrLines)]) ∧
    (logTail 3 stderrLines).length ≤ 3 := by
  constructor
  · by_cases hc : code = -1
    · simp [loopRun, loopActs, loopStops, hc]
    · simp [loopRun, loopActs, loopStops, hc]
  · simp [logTail]
    omega

theorem reportFree_of_killed (lines : List String) :
    ∀ (es : List LoopEvent) (s : LoopState), s.killed = true →
      wfEventsB s es = true → reportFree (loopRun lines s es) = true := by
  intro es
  induction es with
  | nil => intro s _ _; rfl
  | cons e es ih =>
    intro s hk hwf
    cases e with
    | exited c =>
      simp [wfEventsB, hk] at hwf
      simp [loopRun, loopActs, loopStops, hwf.1, reportFree, isReportAct]
    | ctxDone =>
      have hwf2 : wfEventsB (loopNext s .ctxDone) es = true := by
        simp [wfEventsB] at hwf
        exact hwf
      have hk2 : (loopNext s .ctxDone).killed = true := by
        by_cases hex : s.exiting
        · simp [loopNext, hex, hk]
        · simp [loopNext, hex]
      have hrec := ih (loopNext s .ctxDone) hk2 hwf2
      have hstep : loopRun lines s (LoopEvent.ctxDone :: es) =
          loopActs lines s .ctxDone ++ loopRun lines (loopNext s .ctxDone) es := by
        simp [loopRun, loopStops]
      rw [hstep]
      simp [reportFree, List.all_append] at hrec ⊢
      refine ⟨?_, hrec⟩
      by_cases hex : s.exiting
      · simp [loopActs, hex]
      · simp [loopActs, hex, isReportAct]
    | decoderErr =>
      have hwf2 : wfEventsB (loopNext s .decoderErr) es = true := by
        simp [wfEventsB] at hwf
        exact hwf
      have hk2 : (loopNext s .decoderErr).killed = true := by
        simp [loopNext]
      have hrec := ih (loopNext s .decoderErr) hk2 hwf2
      have hstep : loopRun lines s (LoopEvent.decoderErr :: es) =
          loopActs lines s .decoderErr ++ loopRun lines (loopNext s .decoderErr) es := by
        simp [loopRun, loopStops]
      rw [hstep]
      simp [reportFree, List.all_append] at hrec ⊢
      exact ⟨by simp [loopActs, isReportAct], hrec⟩

/-- C4 counterexample. An unexpected end-of-stream in the tag-decode loop
with the teardown latch unset is only logged — the decoder sends nothing on
the error channel, so no kill is triggered; and when the decoder does signal
a structural failure, the loop kills the process and the subsequent exit
(sentinel -1) is logged as an expected termination: no probe-failure report
is ever made on this path. -/
theorem c4_counterexample :
    tagLoop (fun _ => false) 1 [.eofErr] = [.warnClosedPipe] ∧
    loopRun [] ⟨false, false⟩ [.decoderErr, .exited (-1)] =
      [.debugDecoderKill, .killProc, .warnTerminated] := by
  exact ⟨rfl, rfl⟩

/-- C4 (amended). A structural payload-decode failure other than
end-of-stream (and any header-decode failure) with the latch unset makes the
decoder signal the loop, which kills the external process; an end-of-stream
in the tag-decode loop is only logged and kills nothing; and once the
process has been killed, well-formed executions (a killed process exits with
the sentinel -1) never produce a probe-failure report — the run ends with
the expected-termination warning instead. -/
theorem c4_decode_failure (flag : Nat → Bool) (i : Nat) (rs : List DecodeStep)
    (lines : List String) (s : LoopState) (es : List LoopEvent) :
    (flag i = false →
      tagLoop flag i (.otherErr :: rs) = [.warnFailedDecodeTag, .sendDecoderErr]) ∧
    (∀ h : DecodeStep, flag 0 = false → h ≠ .ok →
      DecoderAct.sendDecoderErr ∈ decoderRoutine flag h rs) ∧
    (flag i = false →
      tagLoop flag i (.eofErr :: rs) = .warnClosedPipe :: tagLoop flag (i + 1) rs) ∧
    (loopRun lines s (.decoderErr :: es) =
      .debugDecoderKill :: .killProc :: loopRun lines { s with killed := true } es) ∧
    (wfEventsB { s with killed := true } es = true →
      reportFree (loopRun lines { s with killed := true } es) = true) := by
  refine ⟨?_, ?_, ?_, ?_, ?_⟩
  · intro hf
    simp [tagLoop, hf]
  · intro h hf hok
    cases h with
    | ok => exact absurd rfl hok
    | eofErr => simp [decoderRoutine, hf]
    | otherErr => simp [decoderRoutine, hf]
  · intro hf
    simp [tagLoop, hf]
  · simp [loopRun, loopActs, loopStops, loopNext]
  · intro hwf
    exact reportFree_of_killed lines es { s with killed := true } rfl hwf

/-- C4 witness: the amended behavior at concrete inputs — a malformed-tag
failure with the latch unset emits the error-channel send, and a killed
process whose exit reads -1 produces a report-free trace. -/
theorem c4_witness :
    tagLoop (fun _ => false) 0 [.otherErr] =
      [.warnFailedDecodeTag, .sendDecoderErr] ∧
    reportFree (loopRun [] ⟨false, true⟩ [.exited (-1)]) = true := by
  refine ⟨(c4_decode_failure (fun _ => false) 0 [] [] ⟨false, false⟩ []).1 rfl, ?_⟩
  exact (c4_decode_failure (fun _ => false) 0 [] [] ⟨false, false⟩
    [.exited (-1)]).2.2.2.2 (by decide)

/-- C5. Cancellation with the latch unset sets the latch and kills the
process, and — in well-formed executions, where a killed process exits with
the sentinel -1 — a cancelled run never produces a probe-failure report.
Once the latch is set (by any path), the decoder goroutine suppresses every
subsequent decode error (it neither warns nor signals), a failed header
decode emits nothing, and a repeated cancellation event does nothing. -/
theorem c5_cancellation (lines : List String) (s : LoopState)
    (es : List LoopEvent) (flag : Nat → Bool) (i : Nat) (r : DecodeStep)
    (rs : List DecodeStep) :
    (s.exiting = false →
      loopRun lines s (.ctxDone :: es) =
        .debugCancelKill :: .killProc :: loopRun lines ⟨true, true⟩ es) ∧
    (wfEventsB ⟨true, true⟩ es = true →
      reportFree (loopRun lines ⟨false, false⟩ (.ctxDone :: es)) = true) ∧
    (flag i = true → tagLoop flag i (r :: rs) = tagLoop flag (i + 1) rs) ∧
    (∀ h : DecodeStep, flag 0 = true → h ≠ .ok → decoderRoutine flag h rs = []) ∧
    (s.exiting = true → loopActs lines s .ctxDone = []) := by
  refine ⟨?_, ?_, ?_, ?_, ?_⟩
  · intro hex
    simp [loopRun, loopActs, loopStops, loopNext, hex]
  · intro hwf
    have h1 : loopRun lines ⟨false, false⟩ (.ctxDone :: es) =
        .debugCancelKill :: .killProc :: loopRun lines ⟨true, true⟩ es := by
      simp [loopRun, loopActs, loopStops, loopNext]
    rw [h1]
    have h2 := reportFree_of_killed lines es ⟨true, true⟩ rfl hwf
    simp [reportFree, isReportAct] at h2 ⊢
    exact h2
  · intro hf
    cases r with
    | ok => simp [tagLoop]
    | eofErr => simp [tagLoop, hf]
    | otherErr => simp [tagLoop, hf]
  · intro h hf hok
    cases h with
    | ok => exact absurd rfl hok
    | eofErr => simp [decoderRoutine, hf]
    | otherErr => simp [decoderRoutine, hf]
  · intro hex
    simp [loopActs, hex]

/-- C5 witness: at a concrete cancelled run — cancel, then the killed
process exits with -1 — the trace kills the process and carries no
probe-failure report; with the latch set, a concrete decode error is
suppressed. -/
theorem c5_witness :
    loopRun [] ⟨false, false⟩ [.ctxDone, .exited (-1)] =
      [.debugCancelKill, .killProc, .warnTerminated] ∧
    reportFree (loopRun [] ⟨false, false⟩ [.ctxDone, .exited (-1)]) = true ∧
    tagLoop (fun _ => true) 0 [.otherErr] = tagLoop (fun _ => true) 1 [] := by
  refine ⟨?_, ?_, ?_⟩
  · rw [(c5_cancellation [] ⟨false, false⟩ [.exited (-1)] (fun _ => true) 0
      .ok []).1 rfl]
    rfl
  · exact (c5_cancellation [] ⟨false, false⟩ [.exited (-1)] (fun _ => true) 0
      .ok []).2.1 (by decide)
  · exact (c5_cancellation [] ⟨false, false⟩ [] (fun _ => true) 0
      .otherErr []).2.2.1 rfl

theorem watchdog_resets_five :
    ∀ (es : List WatchEvent) (n : Nat),
      WatchAct.timerReset n ∈ runWatchDog es → n = 5 := by
  intro es
  induction es with
  | nil => intro n h; simp [runWatchDog] at h
  | cons e es ih =>
    intro n h
    cases e with
    | timerFire =>
      simp [runWatchDog] at h
      rcases h with h | h
      · exact h
      · exact ih n h
    | ctxDone => simp [runWatchDog] at h

theorem watchdog_counts :
    ∀ es : List WatchEvent,
      countProbeActs (runWatchDog es) = countUnhealthyActs (runWatchDog es) := by
  intro es
  induction es with
  | nil => rfl
  | cons e es ih =>
    cases e with
    | timerFire => simp [runWatchDog, countProbeActs, countUnhealthyActs, ih]
    | ctxDone => rfl

theorem watchdog_probe_then_unhealthy :
    ∀ (es : List WatchEvent) (k : Nat),
      (runWatchDog es).get? k = some .probeInvoke →
        (runWatchDog es).get? (k + 1) = some .updateUnhealthy ∧
        (runWatchDog es).get? (k + 2) = some (.timerReset 5) := by
  intro es
  induction es with
  | nil => intro k h; simp [runWatchDog] at h
  | cons e es ih =>
    intro k h
    cases e with
    | ctxDone =>
      cases k with
      | zero => simp [runWatchDog] at h
      | succ k => simp [runWatchDog] at h
    | timerFire =>
      match k with
      | 0 => simp [runWatchDog]
      | 1 => simp [runWatchDog] at h
      | 2 => simp [runWatchDog] at h
      | (k + 3) =>
        simp only [runWatchDog] at h ⊢
        exact ih k h

/-- C6. The watchdog loop: every timer reset between probe invocations is
the fixed 5 seconds (never escalated); every probe invocation is followed
immediately by an Unhealthy store write and then the 5-second reset,
whatever made the probe end; probe runs and Unhealthy writes are in
one-to-one correspondence; and a cancellation arriving while the loop waits
makes it return at once, running no further probe. (The probe invocation
itself receives the watchdog's own context, so the same cancellation stops
an in-progress probe.) -/
theorem c6_watchdog (es : List WatchEvent) :
    (∀ n, WatchAct.timerReset n ∈ runWatchDog es → n = 5) ∧
    countProbeActs (runWatchDog es) = countUnhealthyActs (runWatchDog es) ∧
    (∀ k, (runWatchDog es).get? k = some .probeInvoke →
      (runWatchDog es).get? (k + 1) = some .updateUnhealthy ∧
      (runWatchDog es).get? (k + 2) = some (.timerReset 5)) ∧
    runWatchDog (.ctxDone :: es) = [.watchdogReturn] := by
  exact ⟨watchdog_resets_five es, watchdog_counts es,
    watchdog_probe_then_unhealthy es, rfl⟩

/-- C6 witness: in the concrete trace of one probe cycle the probe
invocation at index 0 is followed by the Unhealthy write and the 5-second
reset. -/
theorem c6_witness :
    (runWatchDog [.timerFire]).get? 1 = some .updateUnhealthy ∧
    (runWatchDog [.timerFire]).get? 2 = some (.timerReset 5) :=
  (c6_watchdog [.timerFire]).2.2.1 0 (by rfl)

/-- C7. The orchestrator's subscription callback issues a start-stream
request exactly when the update is for the managed device, its delta sets
the stream state to Unhealthy, and the device's currently stored request
state is not RequestFailed. -/
theorem c7_unhealthy_reissue (babyUID updatedUID : String)
    (store : String → BabyState) (delta : BabyState) :
    watchLivenessCallback babyUID store updatedUID delta = true ↔
      (updatedUID = babyUID ∧ delta.streamState = some .streamState_unhealthy ∧
        (store babyUID).getStreamRequestState ≠ .requestFailed) := by
  unfold watchLivenessCallback
  split_ifs with h1 h2
  · simp [h1, h2]
  · simp [h1, h2]
  · simp at h1
    by_cases hu : updatedUID = babyUID
    · simp [hu] at h1 ⊢
      intro hc
      exact absurd hc h1
    · simp [hu]

/-- C7 witness: a concrete Unhealthy delta for the managed device with a
store holding no failed request makes the callback issue the request. -/
theorem c7_witness :
    watchLivenessCallback "baby1" (fun _ => ({ streamState := none, streamRequestState := none, localStreamingInitiated := none } : BabyState)) "baby1"
      ⟨some .streamState_unhealthy, none, none⟩ = true :=
  (c7_unhealthy_reissue "baby1" "baby1"
    (fun _ => ({ streamState := none, streamRequestState := none, localStreamingInitiated := none } : BabyState))
    ⟨some .streamState_unhealthy, none, none⟩).mpr
    ⟨rfl, rfl, by decide⟩

/-- C8 counterexample. With stored stream state Unhealthy and a request
already pending (Requested), the code still issues a start request on
initial connection, while the claim's condition — liveness not Alive AND
request not pending — is false there: the claimed if-and-only-if fails. -/
theorem c8_counterexample :
    initialStreamRequest ⟨some .streamState_unhealthy, some .requested, none⟩ = true ∧
    ¬ ((⟨some .streamState_unhealthy, some .requested, none⟩ : BabyState).getStreamState ≠
          .streamState_alive ∧
        (⟨some .streamState_unhealthy, some .requested, none⟩ : BabyState).getStreamRequestState ≠
          .requested) := by
  decide

/-- C8 (amended). On initial connection a start-stream request is issued if
and only if the stored liveness is not Alive and either no request is
pending or the stored liveness is Unhealthy (an Unhealthy stream is
re-requested even while a request is pending). -/
theorem c8_initial_request (s : BabyState) :
    initialStreamRequest s = true ↔
      (s.getStreamState ≠ .streamState_alive ∧
        (s.getStreamRequestState ≠ .requested ∨
          s.getStreamState = .streamState_unhealthy)) := by
  unfold initialStreamRequest
  split_ifs with h1 h2
  · simp [h1, h2]
  · simp [h1, h2]
  · simp [h1]

/-- C8 witness: a fresh device record (nothing stored) gets the initial
start request. -/
theorem c8_witness :
    initialStreamRequest ⟨none, none, none⟩ = true :=
  (c8_initial_request ⟨none, none, none⟩).mpr ⟨by decide, Or.inl (by decide)⟩

theorem perseverance_quick_failures :
    ∀ (ds : List Nat) (ord k : Nat), 1 ≤ ord → (∀ d ∈ ds, d < 2) →
      k < ds.length →
      (perseveranceWaits streamProcessorCooldown streamProcessorResetThreshold
          ord ds).get? k =
        some (streamProcessorCooldown.getD (min (ord + k - 1) 4) 0) := by
  intro ds
  induction ds with
  | nil => intro ord k _ _ hk; simp at hk
  | cons d ds ih =>
    intro ord k hord hds hk
    cases k with
    | zero =>
      simp [perseveranceWaits, streamProcessorCooldown]
    | succ k =>
      have hd : d < 2 := hds d (by simp)
      have hnot : ¬ streamProcessorResetThreshold ≤ d := by
        simp [streamProcessorResetThreshold]
        omega
      have harith : ord + 1 + k - 1 = ord + (k + 1) - 1 := by omega
      have := ih (ord + 1) k (by omega) (fun c hc => hds c (by simp [hc])) (by simpa using hk)
      rw [harith] at this
      simpa [perseveranceWaits, hnot] using this

/-- C9. With the stream-processor policy of handleBaby (reset threshold 2s,
cooldown schedule 2s, 30s, 2m, 15m, 1h): three consecutive sub-threshold
failures from a fresh start wait 2s, 30s and 2m; a failing run of ordinal
`ord` always waits `cooldown[min (ord-1) (len-1)]`, so sustained rapid
failure saturates at the schedule's last entry (1h from the sixth
consecutive rapid failure on); and a run lasting at least the threshold
resets the ordinal, making the wait after the next rapid failure 2s
again. -/
theorem c9_perseverance_schedule :
    (∀ d1 d2 d3 : Nat, d1 < 2 → d2 < 2 → d3 < 2 →
      perseveranceWaits streamProcessorCooldown streamProcessorResetThreshold
        1 [d1, d2, d3] = [2, 30, 120]) ∧
    (∀ (ds : List Nat) (k : Nat), (∀ d ∈ ds, d < 2) → k < ds.length → 4 ≤ k →
      (perseveranceWaits streamProcessorCooldown streamProcessorResetThreshold
        1 ds).get? k = some 3600) ∧
    (∀ (ord d : Nat) (rest : List Nat), 2 ≤ d →
      perseveranceWaits streamProcessorCooldown streamProcessorResetThreshold
          ord (d :: rest) =
        streamProcessorCooldown.getD (min (ord - 1) 4) 0 ::
          perseveranceWaits streamProcessorCooldown streamProcessorResetThreshold
            1 rest) ∧
    (∀ (ord d d' : Nat) (rest : List Nat), 2 ≤ d → d' < 2 →
      (perseveranceWaits streamProcessorCooldown streamProcessorResetThreshold
          ord (d :: d' :: rest)).get? 1 = some 2) := by
  refine ⟨?_, ?_, ?_, ?_⟩
  · intro d1 d2 d3 h1 h2 h3
    have n1 : ¬ streamProcessorResetThreshold ≤ d1 := by
      simp [streamProcessorResetThreshold]; omega
    have n2 : ¬ streamProcessorResetThreshold ≤ d2 := by
      simp [streamProcessorResetThreshold]; omega
    have n3 : ¬ streamProcessorResetThreshold ≤ d3 := by
      simp [streamProcessorResetThreshold]; omega
    simp [perseveranceWaits, n1, n2, n3, streamProcessorCooldown]
  · intro ds k hds hk hk4
    have := perseverance_quick_failures ds 1 k (by omega) hds hk
    have harith : min (1 + k - 1) 4 = 4 := by omega
    rw [harith] at this
    simpa [streamProcessorCooldown] using this
  · intro ord d rest hd
    have hth : streamProcessorResetThreshold ≤ d := by
      simpa [streamProcessorResetThreshold] using hd
    simp [perseveranceWaits, hth, streamProcessorCooldown]
  · intro ord d d' rest hd hd'
    have hth : streamProcessorResetThreshold ≤ d := by
      simpa [streamProcessorResetThreshold] using hd
    have hnot : ¬ streamProcessorResetThreshold ≤ d' := by
      simp [streamProcessorResetThreshold]; omega
    simp [perseveranceWaits, hth, hnot, streamProcessorCooldown]

/-- C9 witness: three instant failures from a fresh start wait 2s, 30s, 2m;
a 3-second (above-threshold) run followed by an instant failure makes the
next wait 2s again even from a high ordinal. -/
theorem c9_witness :
    perseveranceWaits streamProcessorCooldown streamProcessorResetThreshold
      1 [0, 0, 0] = [2, 30, 120] ∧
    (perseveranceWaits streamProcessorCooldown streamProcessorResetThreshold
      7 [3, 0]).get? 1 = some 2 := by
  refine ⟨?_, ?_⟩
  · exact c9_perseverance_schedule.1 0 0 0 (by decide) (by decide) (by decide)
  · exact c9_perseverance_schedule.2.2.2 7 3 0 [] (by decide) (by decide)

/-- C10. The supervised stream-processor run reports failure through the
attempt context exactly once — always with a non-nil error — when the
external process exits on its own, whether with a non-nil error or with
status 0; when the attempt is cancelled first, the process is killed and
the attempt is never failed. -/
theorem c10_stream_process (e : ProcEvent) :
    countFailActs (runStreamProcess e) =
      (if e = .attemptCancelled then 0 else 1) ∧
    (∀ b, ProcAct.attemptFail b ∈ runStreamProcess e → b = true) ∧
    (e = .attemptCancelled → ProcAct.killStreamProc ∈ runStreamProcess e) := by
  cases e with
  | exitedErr =>
    refine ⟨rfl, ?_, by simp⟩
    intro b hb
    simp [runStreamProcess] at hb
    exact hb
  | exitedClean =>
    refine ⟨rfl, ?_, by simp⟩
    intro b hb
    simp [runStreamProcess] at hb
    exact hb
  | attemptCancelled =>
    refine ⟨rfl, ?_, ?_⟩
    · intro b hb
      simp [runStreamProcess] at hb
    · intro _
      simp [runStreamProcess]

/-- C10 witness: on a cancelled attempt the process is killed and no
failure is reported; on a clean status-0 exit exactly one failure is
reported. -/
theorem c10_witness :
    ProcAct.killStreamProc ∈ runStreamProcess .attemptCancelled ∧
    countFailActs (runStreamProcess .exitedClean) = 1 :=
  ⟨(c10_stream_process .attemptCancelled).2.2 rfl,
    (c10_stream_process .exitedClean).1⟩

end Nanit
